import Mathlib

set_option autoImplicit false

/-
Shallow embedding of the Python-Based Data Backup and Disaster Recovery
System (package backup_system): the integrity checker, the backup engine,
the disaster-recovery manager and the version manager, as needed by the
verified properties below.

Modelling conventions:
- a directory tree is a list of files keyed by relative path (paths unique
  in a real filesystem; theorems that need this take a Nodup hypothesis);
- file contents are byte lists; sizes are content lengths; modified times
  and wall-clock instants are integers (epoch seconds);
- the cryptographic hash (configurable in IntegrityChecker.ALGORITHMS) is a
  parameter hashFn from bytes to a digest string;
- JSON reading and ISO-8601 parsing are parameters returning Option,
  mirroring json.load / datetime.fromisoformat raising on failure;
- Python exceptions are modelled with Except; operating-system faults that
  the source code catches (permission errors during copy or an arbitrary
  exception inside a try block) are injected through explicit parameters
  (a list of permanently failing paths, an optional fault).
-/

namespace BackupSystem

abbrev Bytes := List Nat

/-- One regular file inside a directory tree: relative path, byte content,
modification time (epoch seconds). -/
structure FileEntry where
  path : String
  content : Bytes
  mtime : Int
  deriving Repr, DecidableEq

/-- A directory tree as the list of its regular files, in walk order. -/
abbrev Tree := List FileEntry

/-- Resolve a relative path inside a tree (os.path.exists plus open). -/
def lookupFile (dir : Tree) (p : String) : Option FileEntry :=
  dir.find? (fun e => e.path == p)

/-- Last component of a relative path (the characters after the last path
separator), mirroring the per-file name seen by os.walk when the source
compares file against the manifest filename. -/
def basename (p : String) : String :=
  ⟨p.data.foldl (fun acc c => if c = '/' then [] else acc ++ [c]) []⟩

/-- Seconds in a day, for datetime.timedelta arithmetic. -/
def secondsPerDay : Int := 86400

/-! ## Integrity checker (integrity_checker.py) -/

/-- One entry of a manifest document: relative path, content digest, size,
modification time. -/
structure ManifestEntry where
  path : String
  hash : String
  size : Nat
  modified : Int
  deriving Repr, DecidableEq

/-- A manifest document as written by create_backup_manifest. -/
structure Manifest where
  algorithm : String
  created : String
  files : List ManifestEntry
  deriving Repr, DecidableEq

/-- An entry of the corrupted-files report list, with truncated digests. -/
structure CorruptedEntry where
  file : String
  expected_hash : String
  actual_hash : String
  deriving Repr, DecidableEq

/-- The results dictionary produced by verify_backup_integrity. -/
structure VerifyResult where
  valid : Bool
  total_files : Nat
  verified_files : Nat
  corrupted_files : List CorruptedEntry
  missing_files : List String
  deriving Repr, DecidableEq

/-- Digest truncation used in the corrupted-files report: first sixteen
characters followed by an ellipsis. -/
def truncDigest (h : String) : String :=
  ⟨h.data.take 16⟩ ++ "..."

/-- IntegrityChecker.create_backup_manifest: hash every file walked under
the backup directory, keyed by relative path.  The walk happens before the
manifest file itself is written, so the manifest never lists itself. -/
def create_backup_manifest (hashFn : Bytes → String) (alg created : String)
    (tree : Tree) : Manifest :=
  { algorithm := alg
    created := created
    files := tree.map (fun f =>
      { path := f.path, hash := hashFn f.content,
        size := f.content.length, modified := f.mtime }) }

/-- Body of the per-entry loop of verify_backup_integrity. -/
def verifyStep (hashFn : Bytes → String) (dir : Tree)
    (acc : VerifyResult) (me : ManifestEntry) : VerifyResult :=
  match lookupFile dir me.path with
  | none =>
      { acc with missing_files := acc.missing_files ++ [me.path], valid := false }
  | some fe =>
      let current := hashFn fe.content
      if current ≠ me.hash then
        { acc with
            corrupted_files := acc.corrupted_files ++
              [{ file := me.path
                 expected_hash := truncDigest me.hash
                 actual_hash := truncDigest current }]
            valid := false }
      else
        { acc with verified_files := acc.verified_files + 1 }

/-- The initial results dictionary of verify_backup_integrity. -/
def initVerifyResult (total : Nat) : VerifyResult :=
  { valid := true, total_files := total, verified_files := 0,
    corrupted_files := [], missing_files := [] }

/-- The main loop of verify_backup_integrity over a parsed manifest. -/
def verifyFiles (hashFn : Bytes → String) (dir : Tree) (m : Manifest) :
    VerifyResult :=
  m.files.foldl (verifyStep hashFn dir) (initVerifyResult m.files.length)

/-- IntegrityChecker.verify_backup_integrity: open and parse the manifest
file (on failure the catch-all branch returns valid false with the initial
empty report), then check every listed file against the directory. -/
def verify_backup_integrity (hashFn : Bytes → String)
    (parseM : Bytes → Option Manifest) (dir : Tree)
    (manifestContent : Option Bytes) : Bool × VerifyResult :=
  match manifestContent with
  | none => (false, { initVerifyResult 0 with valid := false })
  | some bs =>
      match parseM bs with
      | none => (false, { initVerifyResult 0 with valid := false })
      | some m =>
          let r := verifyFiles hashFn dir m
          (r.valid, r)

/-! ## Backup history store (backup_engine.py persistence helpers) -/

/-- A per-record timestamp value as persisted: either already a structured
instant or an ISO-8601 string. -/
inductive TsValue where
  | instant (t : Int)
  | strval (s : String)
  deriving Repr, DecidableEq

/-- A backup record as stored inside the history document on disk. -/
structure RawRecord where
  id : String
  btype : String
  timestamp : TsValue
  source : String
  status : String
  file_count : Option Nat := none
  size_bytes : Option Nat := none
  files : Option (List (String × Int × Nat)) := none
  error : Option String := none
  deriving Repr, DecidableEq

/-- State of the backup_history.json file on disk. -/
inductive HistFile where
  | missing
  | invalid
  | valid (backups : List RawRecord)
  deriving Repr, DecidableEq

/-- An in-memory backup record, with the timestamp normalized to an
instant. -/
structure BackupRecord where
  id : String
  btype : String
  timestamp : Int
  source : String
  status : String
  file_count : Option Nat := none
  size_bytes : Option Nat := none
  files : Option (List (String × Int × Nat)) := none
  error : Option String := none
  deriving Repr, DecidableEq

/-- Timestamp normalization inside BackupEngine._load_history: a string
value goes through datetime.fromisoformat, falling back to now on a parse
error; a structured instant is kept. -/
def normalizeTs (parseIso : String → Option Int) (now : Int) : TsValue → Int
  | .instant t => t
  | .strval s =>
      match parseIso s with
      | some t => t
      | none => now

/-- Per-record normalization performed by BackupEngine._load_history. -/
def normalizeRecord (parseIso : String → Option Int) (now : Int)
    (r : RawRecord) : BackupRecord :=
  { id := r.id, btype := r.btype,
    timestamp := normalizeTs parseIso now r.timestamp,
    source := r.source, status := r.status, file_count := r.file_count,
    size_bytes := r.size_bytes, files := r.files, error := r.error }

/-- BackupEngine._load_history: a missing file yields the empty history; an
existing file is read with json.load, which raises on unparseable content
(the call is not wrapped in try); per-record timestamps are normalized. -/
def load_history (parseIso : String → Option Int) (now : Int) :
    HistFile → Except String (List BackupRecord)
  | .missing => .ok []
  | .invalid => .error "JSONDecodeError"
  | .valid recs => .ok (recs.map (normalizeRecord parseIso now))

/-- Serialization of one record for _save_history: the datetime timestamp
is rendered as an ISO-8601 string. -/
def record_to_raw (renderIso : Int → String) (b : BackupRecord) : RawRecord :=
  { id := b.id, btype := b.btype,
    timestamp := .strval (renderIso b.timestamp),
    source := b.source, status := b.status, file_count := b.file_count,
    size_bytes := b.size_bytes, files := b.files, error := b.error }

/-- BackupEngine._save_history: the whole document is rewritten from the
current in-memory record list. -/
def save_history (renderIso : Int → String) (hist : List BackupRecord) :
    HistFile :=
  .valid (hist.map (record_to_raw renderIso))

/-- BackupEngine._get_last_backup_time: timestamp of the most recent record
with status completed (newest first), or one year before now. -/
def lastBackupTime (hist : List BackupRecord) (now : Int) : Int :=
  match hist.reverse.find? (fun b => b.status == "completed") with
  | some b => b.timestamp
  | none => now - 365 * secondsPerDay

/-- BackupEngine._get_last_full_backup_time: the same scan restricted to
records of type full. -/
def lastFullBackupTime (hist : List BackupRecord) (now : Int) : Int :=
  match hist.reverse.find? (fun b => b.btype == "full" && b.status == "completed") with
  | some b => b.timestamp
  | none => now - 365 * secondsPerDay

/-! ## Backup engine entry points (backup_engine.py) -/

/-- Result of one backup entry point: the returned success flag and record,
the in-memory history and the persisted history file after the call, and
the contents written to the snapshot directory. -/
structure EngineResult where
  ok : Bool
  record : BackupRecord
  history : List BackupRecord
  saved : HistFile
  snapshot : Tree
  deriving Repr, DecidableEq

/-- The shared tail of the three backup entry points: on success append the
completed record and save; in the except branch mark the record failed with
the stringified exception, still append and save, and return False. -/
def finishBackup (renderIso : Int → String) (hist : List BackupRecord)
    (md0 : BackupRecord) : Except String (BackupRecord × Tree) → EngineResult
  | .ok (md, tree) =>
      { ok := true, record := md, history := hist ++ [md],
        saved := save_history renderIso (hist ++ [md]), snapshot := tree }
  | .error e =>
      let md := { md0 with status := "failed", error := some e }
      { ok := false, record := md, history := hist ++ [md],
        saved := save_history renderIso (hist ++ [md]), snapshot := [] }

/-- os.walk over a source directory: a missing directory yields no files
(os.walk does not raise on a nonexistent path). -/
def walkTree : Option Tree → Tree
  | none => []
  | some t => t

/-- The copy-if-newer selection shared by incremental and differential
backups: a file is copied iff its modified time is strictly greater than
the baseline. -/
def selectNewer (tree : Tree) (baseline : Int) : Tree :=
  tree.filter (fun f => baseline < f.mtime)

/-- BackupEngine.full_backup: copytree raises if the source is missing; on
success every file is copied and the record completed.  The fault
parameter injects an arbitrary exception inside the try block. -/
def full_backup (renderIso : Int → String) (fault : Option String)
    (hist : List BackupRecord) (source : Option Tree)
    (source_dir backup_id : String) (now : Int) : EngineResult :=
  let md0 : BackupRecord :=
    { id := backup_id, btype := "full", timestamp := now,
      source := source_dir, status := "in_progress" }
  let body : Except String (BackupRecord × Tree) :=
    match fault with
    | some e => .error e
    | none =>
        match source with
        | none => .error ("No such file or directory: " ++ source_dir)
        | some tree =>
            .ok ({ md0 with
                    file_count := some tree.length,
                    size_bytes := some (tree.map (fun f => f.content.length)).sum,
                    status := "completed",
                    files := some (tree.map (fun f => (f.path, f.mtime, f.content.length))) },
                 tree)
  finishBackup renderIso hist md0 body

/-- BackupEngine.incremental_backup: baseline from _get_last_backup_time;
walks the source and copies exactly the files newer than the baseline,
preserving relative paths; records only the copied subset. -/
def incremental_backup (renderIso : Int → String) (fault : Option String)
    (hist : List BackupRecord) (source : Option Tree)
    (source_dir backup_id : String) (now : Int) : EngineResult :=
  let md0 : BackupRecord :=
    { id := backup_id, btype := "incremental", timestamp := now,
      source := source_dir, status := "in_progress" }
  let body : Except String (BackupRecord × Tree) :=
    match fault with
    | some e => .error e
    | none =>
        let baseline := lastBackupTime hist now
        let copied := selectNewer (walkTree source) baseline
        .ok ({ md0 with
                file_count := some copied.length,
                size_bytes := some (copied.map (fun f => f.content.length)).sum,
                status := "completed",
                files := some (copied.map (fun f => (f.path, f.mtime, f.content.length))) },
             copied)
  finishBackup renderIso hist md0 body

/-- BackupEngine.differential_backup: identical mechanics to incremental,
with the baseline from _get_last_full_backup_time. -/
def differential_backup (renderIso : Int → String) (fault : Option String)
    (hist : List BackupRecord) (source : Option Tree)
    (source_dir backup_id : String) (now : Int) : EngineResult :=
  let md0 : BackupRecord :=
    { id := backup_id, btype := "differential", timestamp := now,
      source := source_dir, status := "in_progress" }
  let body : Except String (BackupRecord × Tree) :=
    match fault with
    | some e => .error e
    | none =>
        let baseline := lastFullBackupTime hist now
        let copied := selectNewer (walkTree source) baseline
        .ok ({ md0 with
                file_count := some copied.length,
                size_bytes := some (copied.map (fun f => f.content.length)).sum,
                status := "completed",
                files := some (copied.map (fun f => (f.path, f.mtime, f.content.length))) },
             copied)
  finishBackup renderIso hist md0 body

/-! ## Disaster recovery manager (disaster_recovery.py) -/

/-- The on-disk backup root: snapshot directories keyed by id under the
three type subdirectories. -/
structure BackupRoot where
  full : List (String × Tree)
  incremental : List (String × Tree)
  differential : List (String × Tree)
  deriving Repr, DecidableEq

/-- DisasterRecoveryManager._find_backup_path: check the full, incremental
and differential subdirectories in that fixed order. -/
def find_backup_path (root : BackupRoot) (backup_id : String) : Option Tree :=
  match root.full.find? (fun p => p.1 == backup_id) with
  | some p => some p.2
  | none =>
      match root.incremental.find? (fun p => p.1 == backup_id) with
      | some p => some p.2
      | none =>
          match root.differential.find? (fun p => p.1 == backup_id) with
          | some p => some p.2
          | none => none

/-- The recovery metadata dictionary of restore_from_backup.  Keys that the
source only sets on some paths are Options. -/
structure RecoveryRecord where
  recovery_id : String
  backup_id : String
  destination : String
  status : String
  file_count : Option Nat := none
  errors : Option (List String) := none
  error : Option String := none
  deriving Repr, DecidableEq

/-- Writing one file into the destination directory, overwriting any file
already present at the same relative path. -/
def treeInsert (t : Tree) (e : FileEntry) : Tree :=
  t.filter (fun x => x.path != e.path) ++ [e]

/-- State of the copy loop of restore_from_backup: destination contents,
number of files copied, recorded non-fatal errors. -/
structure CopyState where
  dest : Tree
  copied : Nat
  errors : List String
  deriving Repr, DecidableEq

/-- One iteration of the restore copy loop: the manifest file itself is
skipped; a file whose copy keeps failing after the three retries is
recorded as a non-fatal error and skipped; otherwise the file is copied
and counted. -/
def copyStep (copyFail : List String) (acc : CopyState) (e : FileEntry) :
    CopyState :=
  if basename e.path == "MANIFEST.json" then acc
  else if copyFail.contains e.path then
    { acc with errors := acc.errors ++ ["Greska pri kopiranju " ++ e.path] }
  else
    { dest := treeInsert acc.dest e, copied := acc.copied + 1,
      errors := acc.errors }

/-- The verification step of restore_from_backup: only run when an
integrity checker is configured and at least one file was copied; it reads
the manifest inside the snapshot directory and, crucially, verifies the
snapshot directory itself. -/
def restoreVerification (hashFn : Bytes → String)
    (parseM : Bytes → Option Manifest) (hasChecker : Bool) (snap : Tree)
    (copied : Nat) : Bool :=
  if hasChecker && decide (0 < copied) then
    match lookupFile snap "MANIFEST.json" with
    | some mf => (verify_backup_integrity hashFn parseM snap (some mf.content)).1
    | none => true
  else true

/-- Everything observable about one restore_from_backup call. -/
structure RestoreOutcome where
  ok : Bool
  record : RecoveryRecord
  destTree : Tree
  verification_passed : Bool
  deriving Repr, DecidableEq

/-- DisasterRecoveryManager.restore_from_backup.  The fault parameter
injects an arbitrary exception inside the try block; an unresolvable id
raises and is caught by the same except branch. -/
def restore_outcome (hashFn : Bytes → String)
    (parseM : Bytes → Option Manifest) (root : BackupRoot)
    (copyFail : List String) (hasChecker : Bool) (fault : Option String)
    (backup_id destination_dir recovery_id : String) : RestoreOutcome :=
  let md0 : RecoveryRecord :=
    { recovery_id := recovery_id, backup_id := backup_id,
      destination := destination_dir, status := "in_progress" }
  match fault with
  | some e =>
      { ok := false, record := { md0 with status := "failed", error := some e },
        destTree := [], verification_passed := true }
  | none =>
      match find_backup_path root backup_id with
      | none =>
          { ok := false,
            record := { md0 with
                        status := "failed",
                        error := some ("Backup " ++ backup_id ++ " nije pronadjen") },
            destTree := [], verification_passed := true }
      | some snap =>
          let cs := snap.foldl (copyStep copyFail) ⟨[], 0, []⟩
          let vp := restoreVerification hashFn parseM hasChecker snap cs.copied
          { ok := vp && decide (0 < cs.copied),
            record := { md0 with
                status := if vp && decide (0 < cs.copied) then "completed"
                          else "completed_with_warnings",
                file_count := some cs.copied,
                errors := some cs.errors },
            destTree := cs.dest,
            verification_passed := vp }

/-- The (success flag, record) pair and destination contents returned by
restore_from_backup. -/
def restore_from_backup (hashFn : Bytes → String)
    (parseM : Bytes → Option Manifest) (root : BackupRoot)
    (copyFail : List String) (hasChecker : Bool) (fault : Option String)
    (backup_id destination_dir recovery_id : String) :
    (Bool × RecoveryRecord) × Tree :=
  let r := restore_outcome hashFn parseM root copyFail hasChecker fault
             backup_id destination_dir recovery_id
  ((r.ok, r.record), r.destTree)

/-- Whether an increment file takes part in the chain copy: the manifest
file is skipped, and a file whose copy raises is skipped. -/
def copyableFile (copyFail : List String) (e : FileEntry) : Bool :=
  basename e.path != "MANIFEST.json" && !(copyFail.contains e.path)

/-- One iteration of the per-increment copy loop of
restore_incremental_chain: same-path files are overwritten, every
successful copy is counted. -/
def incrementStep (copyFail : List String) (acc : Tree × Nat)
    (e : FileEntry) : Tree × Nat :=
  if basename e.path == "MANIFEST.json" then acc
  else if copyFail.contains e.path then acc
  else (treeInsert acc.1 e, acc.2 + 1)

/-- Copy one increment snapshot over the destination. -/
def apply_increment (copyFail : List String) (acc : Tree × Nat)
    (snap : Tree) : Tree × Nat :=
  snap.foldl (incrementStep copyFail) acc

/-- Number of files one increment contributes to the aggregate count. -/
def countCopied (copyFail : List String) (snap : Tree) : Nat :=
  (snap.filter (copyableFile copyFail)).length

/-- Folding a list of increments over the destination in caller order. -/
def chainTree (copyFail : List String) (acc : Tree × Nat)
    (snaps : List Tree) : Tree × Nat :=
  snaps.foldl (apply_increment copyFail) acc

/-- The increment loop of restore_incremental_chain: each id is resolved
(an unresolvable id raises), then its files are copied over the
destination. -/
def restore_chain_go (root : BackupRoot) (copyFail : List String) :
    List String → Tree × Nat → (Tree × Nat) × Option String
  | [], acc => (acc, none)
  | bid :: rest, acc =>
      match find_backup_path root bid with
      | none => (acc, some ("Incremental backup " ++ bid ++ " nije pronadjen"))
      | some snap =>
          restore_chain_go root copyFail rest (apply_increment copyFail acc snap)

/-- Resolution of a list of increment ids to their snapshot trees: none as
soon as one id is unresolvable, mirroring the raise inside the loop. -/
def resolveIds (root : BackupRoot) : List String → Option (List Tree)
  | [] => some []
  | i :: is =>
      match find_backup_path root i, resolveIds root is with
      | some s, some ss => some (s :: ss)
      | _, _ => none

/-- The recovery metadata dictionary of restore_incremental_chain. -/
structure ChainRecord where
  recovery_id : String
  full_backup_id : String
  incremental_count : Nat
  destination : String
  status : String
  file_count : Option Nat := none
  error : Option String := none
  deriving Repr, DecidableEq

/-- DisasterRecoveryManager.restore_incremental_chain: restore the full
snapshot first through restore_from_backup, raise if it reports failure,
then copy each increment in the caller-supplied order over the
destination; the aggregate count starts from the full restore's count and
adds every file copied from increments. -/
def restore_incremental_chain (hashFn : Bytes → String)
    (parseM : Bytes → Option Manifest) (root : BackupRoot)
    (copyFail : List String) (hasChecker : Bool) (fault : Option String)
    (full_backup_id : String) (incremental_backup_ids : List String)
    (destination_dir recovery_id : String) : (Bool × ChainRecord) × Tree :=
  let md0 : ChainRecord :=
    { recovery_id := recovery_id, full_backup_id := full_backup_id,
      incremental_count := incremental_backup_ids.length,
      destination := destination_dir, status := "in_progress" }
  match fault with
  | some e => ((false, { md0 with status := "failed", error := some e }), [])
  | none =>
      let fullRes := restore_outcome hashFn parseM root copyFail hasChecker
                       none full_backup_id destination_dir
                       (recovery_id ++ "_full")
      if fullRes.ok then
        match restore_chain_go root copyFail incremental_backup_ids
                (fullRes.destTree, fullRes.record.file_count.getD 0) with
        | ((t, n), none) =>
            ((true, { md0 with status := "completed", file_count := some n }), t)
        | ((t, _), some e) =>
            ((false, { md0 with status := "failed", error := some e }), t)
      else
        ((false, { md0 with
                   status := "failed",
                   error := some "Oporavak full backupa neuspjesan" }),
         fullRes.destTree)

/-! ## Version manager (version_manager.py) -/

/-- One snapshot directory as the retention manager sees it: id,
filesystem creation time, total size in bytes. -/
structure SnapshotDir where
  id : String
  ctime : Int
  size : Nat
  deriving Repr, DecidableEq

/-- The per-type retention policy (maximum age in days). -/
structure RetentionPolicy where
  full_backup_days : Nat
  incremental_backup_days : Nat
  differential_backup_days : Nat
  monthly_retention_months : Nat
  deriving Repr, DecidableEq

/-- The default policy of VersionManager.__init__. -/
def defaultRetentionPolicy : RetentionPolicy :=
  { full_backup_days := 7, incremental_backup_days := 1,
    differential_backup_days := 3, monthly_retention_months := 12 }

/-- The filesystem state the version manager operates on: the three type
subdirectories, plus the history file it never touches. -/
structure VMState where
  full : List SnapshotDir
  incremental : List SnapshotDir
  differential : List SnapshotDir
  history : HistFile
  deriving Repr, DecidableEq

/-- The results dictionary of apply_retention_policy. -/
structure RetentionResults where
  full_backups_deleted : Nat
  incremental_backups_deleted : Nat
  differential_backups_deleted : Nat
  total_space_freed_bytes : Nat
  deriving Repr, DecidableEq

/-- The deletion test of apply_retention_policy: strictly older than the
per-type cutoff. -/
def expired (cutoff : Int) (d : SnapshotDir) : Bool :=
  d.ctime < cutoff

/-- VersionManager.apply_retention_policy: per-type cutoff now minus the
policy days; every snapshot directory strictly older than its type's
cutoff is removed and its size accumulated; the history document is not
touched. -/
def apply_retention_policy (policy : RetentionPolicy) (now : Int)
    (st : VMState) : VMState × RetentionResults :=
  let cutoffFull := now - (policy.full_backup_days : Int) * secondsPerDay
  let cutoffInc := now - (policy.incremental_backup_days : Int) * secondsPerDay
  let cutoffDiff := now - (policy.differential_backup_days : Int) * secondsPerDay
  let delF := st.full.filter (expired cutoffFull)
  let delI := st.incremental.filter (expired cutoffInc)
  let delD := st.differential.filter (expired cutoffDiff)
  ({ full := st.full.filter (fun d => !expired cutoffFull d)
     incremental := st.incremental.filter (fun d => !expired cutoffInc d)
     differential := st.differential.filter (fun d => !expired cutoffDiff d)
     history := st.history },
   { full_backups_deleted := delF.length
     incremental_backups_deleted := delI.length
     differential_backups_deleted := delD.length
     total_space_freed_bytes := ((delF ++ delI ++ delD).map SnapshotDir.size).sum })

/-! ## Concrete model instances used by witnesses and counterexamples -/

/-- A concrete computable digest model standing in for the configurable
hash algorithm. -/
def hashModel (b : Bytes) : String := toString b

/-- Decimal digit value of a character, for the parse model. -/
def digitVal (c : Char) : Option Nat :=
  if c = '0' then some 0 else if c = '1' then some 1 else
  if c = '2' then some 2 else if c = '3' then some 3 else
  if c = '4' then some 4 else if c = '5' then some 5 else
  if c = '6' then some 6 else if c = '7' then some 7 else
  if c = '8' then some 8 else if c = '9' then some 9 else none

/-- Accumulating decimal parser over a character list. -/
def parseDigits : List Char → Nat → Option Nat
  | [], acc => some acc
  | c :: cs, acc =>
      match digitVal c with
      | some d => parseDigits cs (acc * 10 + d)
      | none => none

/-- A concrete computable ISO-parse model: instants rendered as decimal
digit strings. -/
def isoParseModel (s : String) : Option Int :=
  match s.data with
  | [] => none
  | cs => (parseDigits cs 0).map (fun n => (n : Int))

/-- A concrete computable instant renderer for _save_history. -/
def renderIsoModel (t : Int) : String := toString t

/-- Concrete snapshot used as the claim-C1 counterexample: two payload
files plus the manifest file. -/
def c1Snap : Tree :=
  [⟨"a", [0], 0⟩, ⟨"b", [1], 0⟩, ⟨"MANIFEST.json", [9], 0⟩]

/-- The manifest listing both payload files of c1Snap with correct
digests. -/
def c1Manifest : Manifest :=
  { algorithm := "sha256", created := "t",
    files := [⟨"a", hashModel [0], 1, 0⟩, ⟨"b", hashModel [1], 1, 0⟩] }

/-- Manifest parsing for the concrete snapshots of this file. -/
def c1Parse : Bytes → Option Manifest := fun _ => some c1Manifest

/-- A backup root holding the claim-C1 snapshot as a full backup. -/
def c1Root : BackupRoot :=
  { full := [("full_1", c1Snap)], incremental := [], differential := [] }

/-- A backup root holding one empty incremental snapshot directory. -/
def c2Root : BackupRoot :=
  { full := [], incremental := [("inc_empty", [])], differential := [] }

/-- Concrete chain-restore root: a full snapshot and two increments that
both carry the path p with different contents. -/
def c8Full : Tree := [⟨"x", [0], 0⟩]

def c8Inc1 : Tree := [⟨"p", [1], 0⟩]

def c8Inc2 : Tree := [⟨"p", [2], 0⟩]

def c8Root : BackupRoot :=
  { full := [("f1", c8Full)],
    incremental := [("i1", c8Inc1), ("i2", c8Inc2)],
    differential := [] }

/-- A concrete history whose single record is a completed full backup. -/
def c3Hist : List BackupRecord :=
  [{ id := "full_0", btype := "full", timestamp := 100,
     source := "src", status := "completed" }]

/-! # Helper lemmas -/

/-- The loop invariant relating the valid flag to the two report lists. -/
def VerifyInv (r : VerifyResult) : Prop :=
  r.valid = true ↔ r.missing_files = [] ∧ r.corrupted_files = []

theorem verifyStep_inv (hashFn : Bytes → String) (dir : Tree)
    (acc : VerifyResult) (me : ManifestEntry) (h : VerifyInv acc) :
    VerifyInv (verifyStep hashFn dir acc me) := by
  unfold verifyStep
  cases hl : lookupFile dir me.path with
  | none =>
      simp only [VerifyInv]
      constructor
      · intro hv; cases hv
      · rintro ⟨hm, -⟩
        exact absurd hm (by simp)
  | some fe =>
      by_cases hc : hashFn fe.content ≠ me.hash
      · simp only [if_pos hc, VerifyInv]
        constructor
        · intro hv; cases hv
        · rintro ⟨-, hcor⟩
          exact absurd hcor (by simp)
      · simp only [if_neg hc]
        exact h

theorem foldl_verifyStep_inv (hashFn : Bytes → String) (dir : Tree)
    (entries : List ManifestEntry) (acc : VerifyResult) (h : VerifyInv acc) :
    VerifyInv (entries.foldl (verifyStep hashFn dir) acc) := by
  induction entries generalizing acc with
  | nil => exact h
  | cons e es ih => exact ih _ (verifyStep_inv hashFn dir acc e h)

theorem verifyFiles_inv (hashFn : Bytes → String) (dir : Tree)
    (m : Manifest) : VerifyInv (verifyFiles hashFn dir m) :=
  foldl_verifyStep_inv hashFn dir m.files _
    (by constructor <;> simp [initVerifyResult])

theorem lastBackupTime_append_completed (hist : List BackupRecord)
    (b : BackupRecord) (now : Int) (h : b.status = "completed") :
    lastBackupTime (hist ++ [b]) now = b.timestamp := by
  unfold lastBackupTime
  rw [List.reverse_append]
  simp [List.find?, h]

theorem lastFullBackupTime_append_other (hist : List BackupRecord)
    (b : BackupRecord) (now : Int) (h : b.btype ≠ "full") :
    lastFullBackupTime (hist ++ [b]) now = lastFullBackupTime hist now := by
  unfold lastFullBackupTime
  rw [List.reverse_append]
  have hb : (b.btype == "full" && b.status == "completed") = false := by
    simp [h]
  simp [List.find?, hb]

theorem lastFullBackupTime_now_irrelevant (hist : List BackupRecord)
    (now now2 : Int)
    (h : hist.any (fun b => b.btype == "full" && b.status == "completed") = true) :
    lastFullBackupTime hist now = lastFullBackupTime hist now2 := by
  unfold lastFullBackupTime
  have hsome :
      (hist.reverse.find?
        (fun b => b.btype == "full" && b.status == "completed")).isSome := by
    rw [List.find?_isSome]
    simp only [List.any_eq_true] at h
    obtain ⟨b, hb, hp⟩ := h
    exact ⟨b, by simpa using hb, hp⟩
  obtain ⟨b, hb⟩ := Option.isSome_iff_exists.mp hsome
  rw [hb]

theorem treeInsert_of_not_mem (t : Tree) (e : FileEntry)
    (h : ∀ x ∈ t, x.path ≠ e.path) : treeInsert t e = t ++ [e] := by
  unfold treeInsert
  congr 1
  exact List.filter_eq_self.mpr (fun x hx => by simpa using h x hx)

theorem copy_foldl_clean (copyFail : List String) (tree : Tree) :
    ∀ acc : CopyState,
      (∀ f ∈ tree, (basename f.path == "MANIFEST.json") = false) →
      (∀ f ∈ tree, copyFail.contains f.path = false) →
      (∀ f ∈ tree, ∀ x ∈ acc.dest, x.path ≠ f.path) →
      (tree.map FileEntry.path).Nodup →
      tree.foldl (copyStep copyFail) acc
        = ⟨acc.dest ++ tree, acc.copied + tree.length, acc.errors⟩ := by
  induction tree with
  | nil =>
      intro acc _ _ _ _
      simp
  | cons x xs ih =>
      intro acc hmf hcf hdisj hnd
      rw [List.map_cons, List.nodup_cons] at hnd
      have hstep : copyStep copyFail acc x
          = ⟨acc.dest ++ [x], acc.copied + 1, acc.errors⟩ := by
        unfold copyStep
        rw [if_neg (by simp only [hmf x (List.mem_cons_self x xs)]; decide),
          if_neg (by simp only [hcf x (List.mem_cons_self x xs)]; decide)]
        rw [treeInsert_of_not_mem _ _ (fun y hy => hdisj x (by simp) y hy)]
      have hdisj2 : ∀ f ∈ xs, ∀ y ∈ acc.dest ++ [x], y.path ≠ f.path := by
        intro f hf y hy
        rcases List.mem_append.mp hy with hy | hy
        · exact hdisj f (by simp [hf]) y hy
        · have hyx : y = x := by simpa using hy
          subst hyx
          intro he
          exact hnd.1 (he ▸ List.mem_map_of_mem FileEntry.path hf)
      rw [List.foldl_cons, hstep,
        ih ⟨acc.dest ++ [x], acc.copied + 1, acc.errors⟩
          (fun f hf => hmf f (by simp [hf]))
          (fun f hf => hcf f (by simp [hf]))
          hdisj2 hnd.2]
      rw [List.append_assoc]
      simp only [List.singleton_append, List.length_cons]
      have harith : acc.copied + 1 + xs.length = acc.copied + (xs.length + 1) := by
        omega
      rw [harith]

theorem lookupFile_of_nodup (tree : Tree) (f : FileEntry) (hf : f ∈ tree)
    (hnd : (tree.map FileEntry.path).Nodup) :
    lookupFile tree f.path = some f := by
  induction tree with
  | nil => cases hf
  | cons g gs ih =>
      rw [List.map_cons, List.nodup_cons] at hnd
      rcases List.mem_cons.mp hf with rfl | hmem
      · simp [lookupFile, List.find?]
      · have hne : (g.path == f.path) = false := by
          have hp : f.path ∈ gs.map FileEntry.path :=
            List.mem_map_of_mem FileEntry.path hmem
          simp only [beq_eq_false_iff_ne, ne_eq]
          intro he
          exact hnd.1 (he ▸ hp)
        simp only [lookupFile, List.find?, hne]
        exact ih hmem hnd.2

theorem verify_foldl_all_match (hashFn : Bytes → String) (dir : Tree)
    (entries : List ManifestEntry) :
    ∀ acc : VerifyResult,
      (∀ me ∈ entries, ∃ fe, lookupFile dir me.path = some fe ∧
        hashFn fe.content = me.hash) →
      entries.foldl (verifyStep hashFn dir) acc
        = { acc with verified_files := acc.verified_files + entries.length } := by
  induction entries with
  | nil => intro acc _; simp
  | cons me es ih =>
      intro acc h
      obtain ⟨fe, hl, hh⟩ := h me (by simp)
      have hstep : verifyStep hashFn dir acc me
          = { acc with verified_files := acc.verified_files + 1 } := by
        unfold verifyStep
        rw [hl]
        exact if_neg (not_not_intro hh)
      rw [List.foldl_cons, hstep, ih _ (fun me2 hme2 => h me2 (by simp [hme2]))]
      show ({ acc with verified_files := acc.verified_files + 1 + es.length } : VerifyResult)
        = { acc with verified_files := acc.verified_files + (es.length + 1) }
      have harith : acc.verified_files + 1 + es.length
          = acc.verified_files + (es.length + 1) := by omega
      rw [harith]

theorem find?_filter_keep (t : Tree) (q pr : FileEntry → Bool)
    (h : ∀ x, pr x = true → q x = true) :
    (t.filter q).find? pr = t.find? pr := by
  induction t with
  | nil => rfl
  | cons x xs ih =>
      by_cases hx : pr x = true
      · rw [List.filter_cons_of_pos (h x hx), List.find?_cons_of_pos _ hx,
          List.find?_cons_of_pos _ hx]
      · have hx' : ¬ pr x = true := hx
        by_cases hq : q x = true
        · rw [List.filter_cons_of_pos hq, List.find?_cons_of_neg _ hx',
            List.find?_cons_of_neg _ hx']
          exact ih
        · rw [List.filter_cons_of_neg hq, List.find?_cons_of_neg _ hx']
          exact ih

theorem lookupFile_treeInsert (t : Tree) (e : FileEntry) (p : String) :
    lookupFile (treeInsert t e) p
      = if e.path = p then some e else lookupFile t p := by
  unfold lookupFile treeInsert
  rw [List.find?_append]
  by_cases h : e.path = p
  · rw [if_pos h]
    have h1 : (t.filter (fun x => x.path != e.path)).find?
        (fun x => x.path == p) = none := by
      rw [List.find?_eq_none]
      intro x hx
      have hxe : x.path ≠ e.path := by
        simpa using (List.mem_filter.mp hx).2
      simp only [beq_eq_false_iff_ne, ne_eq, Bool.not_eq_true]
      exact h ▸ hxe
    rw [h1]
    have h2 : List.find? (fun x => x.path == p) [e] = some e :=
      List.find?_cons_of_pos _ (by simp [h])
    rw [h2]
    rfl
  · rw [if_neg h]
    have h2 : List.find? (fun x => x.path == p) [e] = none := by
      rw [List.find?_eq_none]
      intro x hx
      have hxe : x = e := by simpa using hx
      rw [hxe]
      simp only [Bool.not_eq_true, beq_eq_false_iff_ne, ne_eq]
      exact h
    rw [h2, find?_filter_keep t _ _ ?keep, Option.or_none]
    case keep =>
      intro x hxp
      have : x.path = p := by simpa using hxp
      simp only [bne_iff_ne, ne_eq]
      rw [this]
      exact fun he => h he.symm

theorem apply_increment_count (copyFail : List String) (snap : Tree) :
    ∀ acc : Tree × Nat,
      (apply_increment copyFail acc snap).2 = acc.2 + countCopied copyFail snap := by
  induction snap with
  | nil => intro acc; simp [apply_increment, countCopied]
  | cons x xs ih =>
      intro acc
      have hrec : apply_increment copyFail acc (x :: xs)
          = apply_increment copyFail (incrementStep copyFail acc x) xs := rfl
      by_cases h1 : (basename x.path == "MANIFEST.json") = true
      · have hb1 : (basename x.path != "MANIFEST.json") = false := by
          show (!(basename x.path == "MANIFEST.json")) = false
          rw [h1]
          rfl
        have hcpx : copyableFile copyFail x = false := by
          unfold copyableFile
          rw [hb1, Bool.false_and]
        have hs : incrementStep copyFail acc x = acc := by
          unfold incrementStep
          rw [if_pos h1]
        have hcc : countCopied copyFail (x :: xs) = countCopied copyFail xs := by
          unfold countCopied
          rw [List.filter_cons_of_neg (by rw [hcpx]; decide)]
        rw [hrec, hs, ih, hcc]
      · by_cases h2 : copyFail.contains x.path = true
        · have hb2 : (!(copyFail.contains x.path)) = false := by
            rw [h2]
            rfl
          have hcpx : copyableFile copyFail x = false := by
            unfold copyableFile
            rw [hb2, Bool.and_false]
          have hs : incrementStep copyFail acc x = acc := by
            unfold incrementStep
            rw [if_neg h1, if_pos h2]
          have hcc : countCopied copyFail (x :: xs) = countCopied copyFail xs := by
            unfold countCopied
            rw [List.filter_cons_of_neg (by rw [hcpx]; decide)]
          rw [hrec, hs, ih, hcc]
        · have h1f : (basename x.path == "MANIFEST.json") = false := by
            revert h1
            cases basename x.path == "MANIFEST.json" <;> simp
          have h2f : copyFail.contains x.path = false := by
            revert h2
            cases copyFail.contains x.path <;> simp
          have hcpx : copyableFile copyFail x = true := by
            unfold copyableFile
            show ((!(basename x.path == "MANIFEST.json"))
              && !(copyFail.contains x.path)) = true
            rw [h1f, h2f]
            rfl
          have hs : incrementStep copyFail acc x
              = (treeInsert acc.1 x, acc.2 + 1) := by
            unfold incrementStep
            rw [if_neg h1, if_neg h2]
          have hcc : countCopied copyFail (x :: xs) = countCopied copyFail xs + 1 := by
            unfold countCopied
            rw [List.filter_cons_of_pos hcpx]
            rfl
          rw [hrec, hs, ih, hcc]
          omega

theorem apply_increment_untouched (copyFail : List String) (snap : Tree)
    (p : String) :
    ∀ acc : Tree × Nat,
      (∀ e ∈ snap, copyableFile copyFail e = true → e.path ≠ p) →
      lookupFile (apply_increment copyFail acc snap).1 p = lookupFile acc.1 p := by
  induction snap with
  | nil => intro acc _; rfl
  | cons x xs ih =>
      intro acc h
      have hrec : apply_increment copyFail acc (x :: xs)
          = apply_increment copyFail (incrementStep copyFail acc x) xs := rfl
      rw [hrec, ih (incrementStep copyFail acc x) (fun e he hc => h e (by simp [he]) hc)]
      unfold incrementStep
      by_cases h1 : (basename x.path == "MANIFEST.json") = true
      · rw [if_pos h1]
      · rw [if_neg h1]
        by_cases h2 : copyFail.contains x.path = true
        · rw [if_pos h2]
        · rw [if_neg h2]
          have h1f : (basename x.path == "MANIFEST.json") = false := by
            revert h1
            cases basename x.path == "MANIFEST.json" <;> simp
          have h2f : copyFail.contains x.path = false := by
            revert h2
            cases copyFail.contains x.path <;> simp
          have hcp : copyableFile copyFail x = true := by
            unfold copyableFile
            show ((!(basename x.path == "MANIFEST.json"))
              && !(copyFail.contains x.path)) = true
            rw [h1f, h2f]
            rfl
          have hxp : x.path ≠ p := h x (by simp) hcp
          show lookupFile (treeInsert acc.1 x) p = lookupFile acc.1 p
          rw [lookupFile_treeInsert, if_neg hxp]

theorem apply_increment_written (copyFail : List String) (snap : Tree)
    (p : String) (e : FileEntry) :
    ∀ acc : Tree × Nat,
      (snap.map FileEntry.path).Nodup →
      lookupFile snap p = some e →
      copyableFile copyFail e = true →
      lookupFile (apply_increment copyFail acc snap).1 p = some e := by
  induction snap with
  | nil =>
      intro acc _ hfind _
      cases hfind
  | cons x xs ih =>
      intro acc hnd hfind hcp
      rw [List.map_cons, List.nodup_cons] at hnd
      have hrec : apply_increment copyFail acc (x :: xs)
          = apply_increment copyFail (incrementStep copyFail acc x) xs := rfl
      by_cases hx : (x.path == p) = true
      · have hsome : lookupFile (x :: xs) p = some x := by
          unfold lookupFile
          exact List.find?_cons_of_pos _ hx
        have hex : x = e := Option.some.inj (hsome.symm.trans hfind)
        subst hex
        have hxp : x.path = p := by simpa using hx
        have hcp2 : (basename x.path != "MANIFEST.json") = true ∧
            (!(copyFail.contains x.path)) = true := by
          have hcp' := hcp
          unfold copyableFile at hcp'
          rw [Bool.and_eq_true] at hcp'
          exact hcp'
        have hb1 : (basename x.path == "MANIFEST.json") = false := by
          have h1 := hcp2.1
          revert h1
          show ((!(basename x.path == "MANIFEST.json")) = true) → _
          cases basename x.path == "MANIFEST.json" <;> simp
        have hb2 : copyFail.contains x.path = false := by
          have h2 := hcp2.2
          revert h2
          cases copyFail.contains x.path <;> simp
        have huntouched : ∀ y ∈ xs, copyableFile copyFail y = true → y.path ≠ p := by
          intro y hy _ hyp
          apply hnd.1
          have hm : y.path ∈ xs.map FileEntry.path :=
            List.mem_map_of_mem FileEntry.path hy
          rwa [hyp, ← hxp] at hm
        rw [hrec, apply_increment_untouched copyFail xs p
          (incrementStep copyFail acc x) huntouched]
        show lookupFile (incrementStep copyFail acc x).1 p = some x
        unfold incrementStep
        rw [if_neg (by rw [hb1]; decide), if_neg (by rw [hb2]; decide)]
        show lookupFile (treeInsert acc.1 x) p = some x
        rw [lookupFile_treeInsert, if_pos hxp]
      · have hxf : (x.path == p) = false := by
          revert hx
          cases x.path == p <;> simp
        have hfind2 : lookupFile xs p = some e := by
          unfold lookupFile at hfind ⊢
          simp only [List.find?, hxf] at hfind
          exact hfind
        rw [hrec]
        exact ih (incrementStep copyFail acc x) hnd.2 hfind2 hcp

theorem chain_go_resolved (root : BackupRoot) (copyFail : List String) :
    ∀ (ids : List String) (snaps : List Tree) (acc : Tree × Nat),
      resolveIds root ids = some snaps →
      restore_chain_go root copyFail ids acc
        = (chainTree copyFail acc snaps, none) := by
  intro ids
  induction ids with
  | nil =>
      intro snaps acc h
      unfold resolveIds at h
      cases h
      rfl
  | cons i is ih =>
      intro snaps acc h
      unfold resolveIds at h
      cases hf : find_backup_path root i with
      | none => rw [hf] at h; cases h
      | some s =>
          rw [hf] at h
          cases hm : resolveIds root is with
          | none => rw [hm] at h; cases h
          | some ss =>
              rw [hm] at h
              cases h
              show restore_chain_go root copyFail (i :: is) acc
                = (chainTree copyFail acc (s :: ss), none)
              unfold restore_chain_go
              rw [hf]
              exact ih ss (apply_increment copyFail acc s) hm

theorem chainTree_count (copyFail : List String) :
    ∀ (snaps : List Tree) (acc : Tree × Nat),
      (chainTree copyFail acc snaps).2
        = acc.2 + (snaps.map (countCopied copyFail)).sum := by
  intro snaps
  induction snaps with
  | nil => intro acc; simp [chainTree]
  | cons s ss ih =>
      intro acc
      have hrec : chainTree copyFail acc (s :: ss)
          = chainTree copyFail (apply_increment copyFail acc s) ss := rfl
      rw [hrec, ih, apply_increment_count]
      rw [List.map_cons, List.sum_cons]
      omega

theorem filter_length_partition {α : Type} (p : α → Bool) (l : List α) :
    (l.filter p).length + (l.filter (fun a => !p a)).length = l.length := by
  induction l with
  | nil => rfl
  | cons x xs ih =>
      cases h : p x <;> simp [List.filter_cons, h] <;> omega

/-! # Claim theorems -/

/-- Claim C5: For every snapshot directory and parsed manifest, the valid flag
is true exactly when both the missing-files and corrupted-files lists are
empty; and flipping the content of a single backed-up file a, so that its
digest no longer matches the manifest digest, makes verification report
that one file as corrupted, with truncated expected and actual digests,
and valid false. -/
theorem verify_valid_iff_no_missing_no_corrupted :
    (∀ (hashFn : Bytes → String) (dir : Tree) (m : Manifest),
      ((verifyFiles hashFn dir m).valid = true ↔
        (verifyFiles hashFn dir m).missing_files = [] ∧
        (verifyFiles hashFn dir m).corrupted_files = [])) ∧
    (∀ (hashFn : Bytes → String) (a : String) (c c2 : Bytes) (mt : Int)
       (sz : Nat) (alg created : String),
      hashFn c2 ≠ hashFn c →
      verifyFiles hashFn [⟨a, c2, mt⟩]
          ⟨alg, created, [⟨a, hashFn c, sz, mt⟩]⟩ =
        { valid := false, total_files := 1, verified_files := 0,
          corrupted_files :=
            [⟨a, truncDigest (hashFn c), truncDigest (hashFn c2)⟩],
          missing_files := [] }) := by
  constructor
  · intro hashFn dir m
    exact verifyFiles_inv hashFn dir m
  · intro hashFn a c c2 mt sz alg created hne
    simp [verifyFiles, verifyStep, lookupFile, List.find?, initVerifyResult, hne]

/-- Witness for the verification theorem at concrete inputs: a one-byte
difference in content under a digest model that distinguishes them. -/
theorem verify_valid_iff_no_missing_no_corrupted_witness :
    verifyFiles (fun b => toString b) [⟨"a", [1], 0⟩]
        ⟨"sha256", "t", [⟨"a", toString ([0] : Bytes), 1, 0⟩]⟩ =
      { valid := false, total_files := 1, verified_files := 0,
        corrupted_files :=
          [⟨"a", truncDigest (toString ([0] : Bytes)),
            truncDigest (toString ([1] : Bytes))⟩],
        missing_files := [] } :=
  (verify_valid_iff_no_missing_no_corrupted).2
    (fun b => toString b) "a" [0] [1] 0 1 "sha256" "t" (by decide)

/-- Claim C4: incremental_backup copies exactly the files of the source tree
whose modified time is strictly greater than the baseline from
_get_last_backup_time, preserves their relative paths in the snapshot,
records exactly the copied subset and its count; it copies zero files when
nothing changed; and the baseline is the timestamp of the most recent
completed backup of any type, or one year before now when none exists. -/
theorem incremental_copies_exactly_newer :
    (∀ (renderIso : Int → String) (hist : List BackupRecord) (tree : Tree)
       (source_dir backup_id : String) (now : Int),
      (incremental_backup renderIso none hist (some tree) source_dir backup_id now).snapshot
          = tree.filter (fun f => lastBackupTime hist now < f.mtime) ∧
      (incremental_backup renderIso none hist (some tree) source_dir backup_id now).record.file_count
          = some (tree.filter (fun f => lastBackupTime hist now < f.mtime)).length ∧
      (incremental_backup renderIso none hist (some tree) source_dir backup_id now).record.files
          = some ((tree.filter (fun f => lastBackupTime hist now < f.mtime)).map
              (fun f => (f.path, f.mtime, f.content.length))) ∧
      (incremental_backup renderIso none hist (some tree) source_dir backup_id now).ok = true) ∧
    (∀ (renderIso : Int → String) (hist : List BackupRecord) (tree : Tree)
       (source_dir backup_id : String) (now : Int),
      (∀ f ∈ tree, f.mtime ≤ lastBackupTime hist now) →
      (incremental_backup renderIso none hist (some tree) source_dir backup_id now).snapshot = [] ∧
      (incremental_backup renderIso none hist (some tree) source_dir backup_id now).record.file_count
        = some 0) ∧
    (∀ now : Int, lastBackupTime [] now = now - 365 * secondsPerDay) ∧
    (∀ (hist : List BackupRecord) (b : BackupRecord) (now : Int),
      b.status = "completed" → lastBackupTime (hist ++ [b]) now = b.timestamp) := by
  refine ⟨?_, ?_, ?_, ?_⟩
  · intro renderIso hist tree source_dir backup_id now
    exact ⟨rfl, rfl, rfl, rfl⟩
  · intro renderIso hist tree source_dir backup_id now h
    have hnil : tree.filter (fun f => lastBackupTime hist now < f.mtime) = [] := by
      rw [List.filter_eq_nil_iff]
      intro f hf
      simpa using not_lt.mpr (h f hf)
    constructor
    · show selectNewer (walkTree (some tree)) (lastBackupTime hist now) = []
      simpa [selectNewer, walkTree] using hnil
    · show some (selectNewer (walkTree (some tree)) (lastBackupTime hist now)).length = some 0
      simp [selectNewer, walkTree, hnil]
  · intro now
    rfl
  · intro hist b now h
    exact lastBackupTime_append_completed hist b now h

/-- Witness for the incremental-backup theorem: with one completed record
at instant 100 and a source file last modified at 50, an incremental run
at instant 200 copies nothing. -/
theorem incremental_copies_exactly_newer_witness :
    (incremental_backup renderIsoModel none c3Hist
        (some [⟨"a", [0], 50⟩]) "src" "inc_1" 200).snapshot = [] :=
  (incremental_copies_exactly_newer.2.1 renderIsoModel c3Hist
    [⟨"a", [0], 50⟩] "src" "inc_1" 200 (by decide)).1

/-- Claim C3: differential_backup measures against the timestamp of the most
recent completed full backup, never against the previous differential:
after one differential run, a second run still uses the same baseline from
_get_last_full_backup_time; with an unchanged source tree the two runs
copy identical file sets, and when files are only modified or added in
between, every path copied by the first run is also copied by the second
(a superset, hence never disjoint nonempty sets). -/
theorem differential_baseline_is_last_full :
    ∀ (renderIso : Int → String) (hist : List BackupRecord)
      (tree1 tree2 : Tree) (source_dir id1 id2 : String) (now1 now2 : Int),
      hist.any (fun b => b.btype == "full" && b.status == "completed") = true →
      (lastFullBackupTime
          (differential_backup renderIso none hist (some tree1) source_dir id1 now1).history now2
        = lastFullBackupTime hist now1) ∧
      (tree2 = tree1 →
        (differential_backup renderIso none
            (differential_backup renderIso none hist (some tree1) source_dir id1 now1).history
            (some tree2) source_dir id2 now2).snapshot
          = (differential_backup renderIso none hist (some tree1) source_dir id1 now1).snapshot) ∧
      ((∀ f ∈ tree1, ∃ g ∈ tree2, g.path = f.path ∧ f.mtime ≤ g.mtime) →
        ∀ f ∈ (differential_backup renderIso none hist (some tree1) source_dir id1 now1).snapshot,
          ∃ g ∈ (differential_backup renderIso none
              (differential_backup renderIso none hist (some tree1) source_dir id1 now1).history
              (some tree2) source_dir id2 now2).snapshot,
            g.path = f.path) := by
  intro renderIso hist tree1 tree2 source_dir id1 id2 now1 now2 hfull
  have hhist :
      (differential_backup renderIso none hist (some tree1) source_dir id1 now1).history
        = hist ++ [(differential_backup renderIso none hist (some tree1) source_dir id1 now1).record] :=
    rfl
  have hbt :
      (differential_backup renderIso none hist (some tree1) source_dir id1 now1).record.btype
        = "differential" := rfl
  have hkey :
      lastFullBackupTime
          (differential_backup renderIso none hist (some tree1) source_dir id1 now1).history now2
        = lastFullBackupTime hist now1 := by
    rw [hhist, lastFullBackupTime_append_other _ _ _ (by rw [hbt]; decide)]
    exact lastFullBackupTime_now_irrelevant hist now2 now1 hfull
  refine ⟨hkey, ?_, ?_⟩
  · intro hteq
    show selectNewer (walkTree (some tree2))
        (lastFullBackupTime
          (differential_backup renderIso none hist (some tree1) source_dir id1 now1).history now2)
      = selectNewer (walkTree (some tree1)) (lastFullBackupTime hist now1)
    rw [hkey, hteq]
  · intro hmono f hf
    have hf2 : f ∈ selectNewer (walkTree (some tree1)) (lastFullBackupTime hist now1) := hf
    have hf' : f ∈ tree1 ∧ lastFullBackupTime hist now1 < f.mtime := by
      simpa [selectNewer, walkTree, List.mem_filter] using hf2
    obtain ⟨g, hg, hgp, hgm⟩ := hmono f hf'.1
    refine ⟨g, ?_, hgp⟩
    show g ∈ selectNewer (walkTree (some tree2))
        (lastFullBackupTime
          (differential_backup renderIso none hist (some tree1) source_dir id1 now1).history now2)
    rw [hkey]
    simp only [selectNewer, walkTree, List.mem_filter]
    exact ⟨hg, by simpa using lt_of_lt_of_le hf'.2 hgm⟩

/-- Witness for the differential-baseline theorem: a history with one
completed full backup at instant 100; after a differential run at 200, a
second run at 300 still measures against instant 100. -/
theorem differential_baseline_is_last_full_witness :
    lastFullBackupTime
        (differential_backup renderIsoModel none c3Hist
          (some [⟨"a", [0], 150⟩]) "src" "diff_1" 200).history 300
      = lastFullBackupTime c3Hist 200 :=
  (differential_baseline_is_last_full renderIsoModel c3Hist
    [⟨"a", [0], 150⟩] [⟨"a", [0], 150⟩] "src" "diff_1" "diff_2" 200 300
    (by decide)).1

/-- Claim C6: every backup entry point appends the returned record to the
in-memory history and rewrites the history file in all cases; when an
exception is injected, the returned record has status failed carrying the
error message, the call returns False instead of propagating, and the
failed record is still appended and saved; full_backup on a missing source
directory likewise fails without propagating. -/
theorem backup_failure_paths_recorded :
    ∀ (renderIso : Int → String) (fault : Option String)
      (hist : List BackupRecord) (source : Option Tree)
      (source_dir backup_id : String) (now : Int),
      ((full_backup renderIso fault hist source source_dir backup_id now).history
          = hist ++ [(full_backup renderIso fault hist source source_dir backup_id now).record] ∧
        (full_backup renderIso fault hist source source_dir backup_id now).saved
          = save_history renderIso
              (full_backup renderIso fault hist source source_dir backup_id now).history) ∧
      ((incremental_backup renderIso fault hist source source_dir backup_id now).history
          = hist ++ [(incremental_backup renderIso fault hist source source_dir backup_id now).record] ∧
        (incremental_backup renderIso fault hist source source_dir backup_id now).saved
          = save_history renderIso
              (incremental_backup renderIso fault hist source source_dir backup_id now).history) ∧
      ((differential_backup renderIso fault hist source source_dir backup_id now).history
          = hist ++ [(differential_backup renderIso fault hist source source_dir backup_id now).record] ∧
        (differential_backup renderIso fault hist source source_dir backup_id now).saved
          = save_history renderIso
              (differential_backup renderIso fault hist source source_dir backup_id now).history) ∧
      (∀ e, fault = some e →
        ((full_backup renderIso fault hist source source_dir backup_id now).ok = false ∧
         (full_backup renderIso fault hist source source_dir backup_id now).record.status = "failed" ∧
         (full_backup renderIso fault hist source source_dir backup_id now).record.error = some e) ∧
        ((incremental_backup renderIso fault hist source source_dir backup_id now).ok = false ∧
         (incremental_backup renderIso fault hist source source_dir backup_id now).record.status = "failed" ∧
         (incremental_backup renderIso fault hist source source_dir backup_id now).record.error = some e) ∧
        ((differential_backup renderIso fault hist source source_dir backup_id now).ok = false ∧
         (differential_backup renderIso fault hist source source_dir backup_id now).record.status = "failed" ∧
         (differential_backup renderIso fault hist source source_dir backup_id now).record.error = some e)) ∧
      (fault = none → source = none →
        (full_backup renderIso fault hist source source_dir backup_id now).ok = false ∧
        (full_backup renderIso fault hist source source_dir backup_id now).record.status = "failed") := by
  intro renderIso fault hist source source_dir backup_id now
  refine ⟨?_, ?_, ?_, ?_, ?_⟩
  · cases fault with
    | some e => exact ⟨rfl, rfl⟩
    | none =>
        cases source with
        | some t => exact ⟨rfl, rfl⟩
        | none => exact ⟨rfl, rfl⟩
  · cases fault with
    | some e => exact ⟨rfl, rfl⟩
    | none => exact ⟨rfl, rfl⟩
  · cases fault with
    | some e => exact ⟨rfl, rfl⟩
    | none => exact ⟨rfl, rfl⟩
  · rintro e rfl
    exact ⟨⟨rfl, rfl, rfl⟩, ⟨rfl, rfl, rfl⟩, ⟨rfl, rfl, rfl⟩⟩
  · rintro rfl rfl
    exact ⟨rfl, rfl⟩

/-- Witness for the failure-recording theorem: an injected exception on an
empty history yields a failed, appended record. -/
theorem backup_failure_paths_recorded_witness :
    (full_backup renderIsoModel (some "boom") [] (some []) "src" "b1" 0).record.status
      = "failed" :=
  ((backup_failure_paths_recorded renderIsoModel (some "boom") [] (some [])
    "src" "b1" 0).2.2.2.1 "boom" rfl).1.2.1

/-- Claim C7 counterexample: loading a history file that exists but is
unparseable raises (json.load is not wrapped in try in _load_history), it
does not return an empty history. -/
theorem load_history_unparseable_raises :
    load_history isoParseModel 0 HistFile.invalid = Except.error "JSONDecodeError" ∧
    load_history isoParseModel 0 HistFile.invalid ≠ Except.ok [] := by
  refine ⟨rfl, ?_⟩
  intro h
  cases h

/-- Claim C7 amended: _load_history tolerates per-record timestamps stored
either as structured instants or as strings, normalizing them to instants
with a fallback to now when a string fails to parse, and a missing history
file yields an empty history; but an existing unparseable history file
raises instead of returning an empty history. -/
theorem load_history_normalizes_timestamps :
    ∀ (parseIso : String → Option Int) (now : Int),
      load_history parseIso now .missing = .ok [] ∧
      (∀ recs, load_history parseIso now (.valid recs)
          = .ok (recs.map (normalizeRecord parseIso now))) ∧
      (∀ r t, r.timestamp = .instant t →
        (normalizeRecord parseIso now r).timestamp = t) ∧
      (∀ r s t, r.timestamp = .strval s → parseIso s = some t →
        (normalizeRecord parseIso now r).timestamp = t) ∧
      (∀ r s, r.timestamp = .strval s → parseIso s = none →
        (normalizeRecord parseIso now r).timestamp = now) ∧
      load_history parseIso now .invalid = .error "JSONDecodeError" := by
  intro parseIso now
  refine ⟨rfl, fun recs => rfl, ?_, ?_, ?_, rfl⟩
  · intro r t h
    simp [normalizeRecord, normalizeTs, h]
  · intro r s t hs hp
    simp [normalizeRecord, normalizeTs, hs, hp]
  · intro r s hs hp
    simp [normalizeRecord, normalizeTs, hs, hp]

/-- Witness for the load-history theorem: a record with an unparseable
string timestamp is normalized to the load instant. -/
theorem load_history_normalizes_timestamps_witness :
    (normalizeRecord isoParseModel 42
        { id := "b", btype := "full", timestamp := .strval "not-a-date",
          source := "s", status := "completed" }).timestamp = 42 :=
  (load_history_normalizes_timestamps isoParseModel 42).2.2.2.2.1
    { id := "b", btype := "full", timestamp := .strval "not-a-date",
      source := "s", status := "completed" } "not-a-date" rfl (by decide)

/-- Claim C2 counterexample: restoring from an existing but empty snapshot
directory copies zero files without any exception, and the final record
status is completed_with_warnings, not failed as the claim states. -/
theorem restore_zero_files_not_failed :
    (restore_outcome hashModel c1Parse c2Root [] true none "inc_empty" "D" "r2").record.status
        = "completed_with_warnings" ∧
    (restore_outcome hashModel c1Parse c2Root [] true none "inc_empty" "D" "r2").record.file_count
        = some 0 ∧
    (restore_outcome hashModel c1Parse c2Root [] true none "inc_empty" "D" "r2").ok
        = false := by
  decide

/-- Claim C2 amended: the final restore status is: failed exactly on the
exception paths (an injected exception, or an unresolvable backup id,
whose error message names the missing id and whose success flag is false);
on the non-exception path the status is completed when verification passed
and at least one file was copied, and completed_with_warnings otherwise —
including the zero-files-copied case, which is never reported as failed. -/
theorem restore_status_paths :
    ∀ (hashFn : Bytes → String) (parseM : Bytes → Option Manifest)
      (root : BackupRoot) (copyFail : List String) (hasChecker : Bool)
      (backup_id dest rid : String),
      (∀ e,
        (restore_outcome hashFn parseM root copyFail hasChecker (some e) backup_id dest rid).record.status = "failed" ∧
        (restore_outcome hashFn parseM root copyFail hasChecker (some e) backup_id dest rid).ok = false ∧
        (restore_outcome hashFn parseM root copyFail hasChecker (some e) backup_id dest rid).record.error = some e) ∧
      (find_backup_path root backup_id = none →
        (restore_outcome hashFn parseM root copyFail hasChecker none backup_id dest rid).record.status = "failed" ∧
        (restore_outcome hashFn parseM root copyFail hasChecker none backup_id dest rid).ok = false ∧
        (restore_outcome hashFn parseM root copyFail hasChecker none backup_id dest rid).record.error
          = some ("Backup " ++ backup_id ++ " nije pronadjen")) ∧
      (∀ snap, find_backup_path root backup_id = some snap →
        (restore_outcome hashFn parseM root copyFail hasChecker none backup_id dest rid).record.status
          = (if restoreVerification hashFn parseM hasChecker snap
                  (snap.foldl (copyStep copyFail) ⟨[], 0, []⟩).copied
                && decide (0 < (snap.foldl (copyStep copyFail) ⟨[], 0, []⟩).copied)
             then "completed" else "completed_with_warnings") ∧
        (restore_outcome hashFn parseM root copyFail hasChecker none backup_id dest rid).ok
          = (restoreVerification hashFn parseM hasChecker snap
                  (snap.foldl (copyStep copyFail) ⟨[], 0, []⟩).copied
                && decide (0 < (snap.foldl (copyStep copyFail) ⟨[], 0, []⟩).copied)) ∧
        (restore_outcome hashFn parseM root copyFail hasChecker none backup_id dest rid).record.status
          ≠ "failed" ∧
        ((snap.foldl (copyStep copyFail) ⟨[], 0, []⟩).copied = 0 →
          (restore_outcome hashFn parseM root copyFail hasChecker none backup_id dest rid).record.status
            = "completed_with_warnings")) := by
  intro hashFn parseM root copyFail hasChecker backup_id dest rid
  refine ⟨fun e => ⟨rfl, rfl, rfl⟩, ?_, ?_⟩
  · intro hnone
    refine ⟨?_, ?_, ?_⟩ <;> simp [restore_outcome, hnone]
  · intro snap hsnap
    have h1 :
        (restore_outcome hashFn parseM root copyFail hasChecker none backup_id dest rid).record.status
          = (if restoreVerification hashFn parseM hasChecker snap
                  (snap.foldl (copyStep copyFail) ⟨[], 0, []⟩).copied
                && decide (0 < (snap.foldl (copyStep copyFail) ⟨[], 0, []⟩).copied)
             then "completed" else "completed_with_warnings") := by
      simp [restore_outcome, hsnap]
    have h2 :
        (restore_outcome hashFn parseM root copyFail hasChecker none backup_id dest rid).ok
          = (restoreVerification hashFn parseM hasChecker snap
                  (snap.foldl (copyStep copyFail) ⟨[], 0, []⟩).copied
                && decide (0 < (snap.foldl (copyStep copyFail) ⟨[], 0, []⟩).copied)) := by
      simp [restore_outcome, hsnap]
    refine ⟨h1, h2, ?_, ?_⟩
    · rw [h1]
      by_cases hb : (restoreVerification hashFn parseM hasChecker snap
            (snap.foldl (copyStep copyFail) ⟨[], 0, []⟩).copied
          && decide (0 < (snap.foldl (copyStep copyFail) ⟨[], 0, []⟩).copied)) = true
      · rw [if_pos hb]; decide
      · rw [if_neg hb]; decide
    · intro hzero
      rw [h1, hzero]
      simp

/-- Witness for the restore-status theorem: a missing backup id yields a
failed record whose error names the id. -/
theorem restore_status_paths_witness :
    (restore_outcome hashModel c1Parse c2Root [] true none "ghost" "D" "r9").record.error
      = some ("Backup " ++ "ghost" ++ " nije pronadjen") :=
  ((restore_status_paths hashModel c1Parse c2Root [] true "ghost" "D" "r9").2.1
    (by decide)).2.2

/-- Claim C10: the success flag returned by restore_from_backup is true exactly
when the final record status is completed; whenever the status is
completed_with_warnings the call returns false even though files may have
been written; and on the non-exception path the flag equals verification
passed AND at least one file copied. -/
theorem restore_ok_iff_completed :
    ∀ (hashFn : Bytes → String) (parseM : Bytes → Option Manifest)
      (root : BackupRoot) (copyFail : List String) (hasChecker : Bool)
      (fault : Option String) (backup_id dest rid : String),
      ((restore_outcome hashFn parseM root copyFail hasChecker fault backup_id dest rid).ok = true
        ↔ (restore_outcome hashFn parseM root copyFail hasChecker fault backup_id dest rid).record.status
            = "completed") ∧
      ((restore_outcome hashFn parseM root copyFail hasChecker fault backup_id dest rid).record.status
          = "completed_with_warnings" →
        (restore_outcome hashFn parseM root copyFail hasChecker fault backup_id dest rid).ok = false) ∧
      (∀ snap, fault = none → find_backup_path root backup_id = some snap →
        (restore_outcome hashFn parseM root copyFail hasChecker fault backup_id dest rid).ok
          = (restoreVerification hashFn parseM hasChecker snap
                (snap.foldl (copyStep copyFail) ⟨[], 0, []⟩).copied
              && decide (0 < (snap.foldl (copyStep copyFail) ⟨[], 0, []⟩).copied))) := by
  intro hashFn parseM root copyFail hasChecker fault backup_id dest rid
  have main :
      ((restore_outcome hashFn parseM root copyFail hasChecker fault backup_id dest rid).ok = true
        ↔ (restore_outcome hashFn parseM root copyFail hasChecker fault backup_id dest rid).record.status
            = "completed") ∧
      ((restore_outcome hashFn parseM root copyFail hasChecker fault backup_id dest rid).record.status
          = "completed_with_warnings" →
        (restore_outcome hashFn parseM root copyFail hasChecker fault backup_id dest rid).ok = false) := by
    cases fault with
    | some e =>
        refine ⟨?_, ?_⟩ <;> simp [restore_outcome]
    | none =>
        cases hfind : find_backup_path root backup_id with
        | none =>
            refine ⟨?_, ?_⟩ <;> simp [restore_outcome, hfind]
        | some snap =>
            by_cases hb : (restoreVerification hashFn parseM hasChecker snap
                  (snap.foldl (copyStep copyFail) ⟨[], 0, []⟩).copied
                && decide (0 < (snap.foldl (copyStep copyFail) ⟨[], 0, []⟩).copied)) = true
            · refine ⟨?_, ?_⟩ <;> simp [restore_outcome, hfind, hb]
            · rw [Bool.not_eq_true] at hb
              refine ⟨?_, ?_⟩ <;> simp [restore_outcome, hfind, hb]
  refine ⟨main.1, main.2, ?_⟩
  rintro snap rfl hfind
  simp [restore_outcome, hfind]

/-- Witness for the success-flag theorem: the empty-snapshot restore has
status completed_with_warnings, and applying the theorem yields a false
flag. -/
theorem restore_ok_iff_completed_witness :
    (restore_outcome hashModel c1Parse c2Root [] true none "inc_empty" "D" "r3").ok = false :=
  (restore_ok_iff_completed hashModel c1Parse c2Root [] true none "inc_empty" "D" "r3").2.1
    (by decide)

/-- Claim C1 counterexample: restore_from_backup verifies the snapshot source
directory, not the destination: with an intact snapshot but one file whose
copy permanently fails, the destination fails verification against the
manifest (file a missing), yet the final status is completed and the
success flag true — the claimed destination verification and its downgrade
do not happen. -/
theorem restore_does_not_verify_destination :
    (restore_outcome hashModel c1Parse c1Root ["a"] true none "full_1" "D" "r1").record.status
        = "completed" ∧
    (restore_outcome hashModel c1Parse c1Root ["a"] true none "full_1" "D" "r1").ok = true ∧
    (verifyFiles hashModel
        (restore_outcome hashModel c1Parse c1Root ["a"] true none "full_1" "D" "r1").destTree
        c1Manifest).valid = false ∧
    (verifyFiles hashModel
        (restore_outcome hashModel c1Parse c1Root ["a"] true none "full_1" "D" "r1").destTree
        c1Manifest).missing_files = ["a"] := by
  decide

/-- Claim C1 amended: after copying, restore_from_backup verifies the snapshot
source directory (not the destination) against the manifest found inside
it, and a verification failure downgrades the final status to
completed_with_warnings rather than failed; restoring an unmodified,
fault-free snapshot into D leaves D equal to the snapshot's payload, and
verifying D against the snapshot's manifest yields verified_files equal to
total_files with valid true. -/
theorem restore_verifies_snapshot_and_roundtrip :
    (∀ (hashFn : Bytes → String) (parseM : Bytes → Option Manifest)
       (root : BackupRoot) (copyFail : List String) (hasChecker : Bool)
       (backup_id dest rid : String) (snap : Tree),
      find_backup_path root backup_id = some snap →
      ((restore_outcome hashFn parseM root copyFail hasChecker none backup_id dest rid).verification_passed
          = restoreVerification hashFn parseM hasChecker snap
              (snap.foldl (copyStep copyFail) ⟨[], 0, []⟩).copied) ∧
      ((restore_outcome hashFn parseM root copyFail hasChecker none backup_id dest rid).verification_passed
          = false →
        (restore_outcome hashFn parseM root copyFail hasChecker none backup_id dest rid).record.status
          = "completed_with_warnings")) ∧
    (∀ (hashFn : Bytes → String) (parseM : Bytes → Option Manifest)
       (root : BackupRoot) (hasChecker : Bool)
       (backup_id dest rid alg created : String) (tree : Tree)
       (mfBytes : Bytes) (mfMtime : Int),
      find_backup_path root backup_id
          = some (tree ++ [⟨"MANIFEST.json", mfBytes, mfMtime⟩]) →
      (∀ f ∈ tree, (basename f.path == "MANIFEST.json") = false) →
      (tree.map FileEntry.path).Nodup →
      (restore_outcome hashFn parseM root [] hasChecker none backup_id dest rid).destTree
          = tree ∧
      (verifyFiles hashFn
          (restore_outcome hashFn parseM root [] hasChecker none backup_id dest rid).destTree
          (create_backup_manifest hashFn alg created tree)).verified_files
        = (verifyFiles hashFn
            (restore_outcome hashFn parseM root [] hasChecker none backup_id dest rid).destTree
            (create_backup_manifest hashFn alg created tree)).total_files ∧
      (verifyFiles hashFn
          (restore_outcome hashFn parseM root [] hasChecker none backup_id dest rid).destTree
          (create_backup_manifest hashFn alg created tree)).valid = true) := by
  constructor
  · intro hashFn parseM root copyFail hasChecker backup_id dest rid snap hfind
    have hv :
        (restore_outcome hashFn parseM root copyFail hasChecker none backup_id dest rid).verification_passed
          = restoreVerification hashFn parseM hasChecker snap
              (snap.foldl (copyStep copyFail) ⟨[], 0, []⟩).copied := by
      simp [restore_outcome, hfind]
    refine ⟨hv, ?_⟩
    intro hvp
    rw [hv] at hvp
    simp [restore_outcome, hfind, hvp]
  · intro hashFn parseM root hasChecker backup_id dest rid alg created tree mfBytes mfMtime
      hfind hmf hnd
    have hfold :
        (tree ++ [(⟨"MANIFEST.json", mfBytes, mfMtime⟩ : FileEntry)]).foldl
            (copyStep []) (⟨[], 0, []⟩ : CopyState)
          = ⟨tree, tree.length, []⟩ := by
      rw [List.foldl_append,
        copy_foldl_clean [] tree (⟨[], 0, []⟩ : CopyState) hmf (fun f _ => rfl)
          (fun f _ x hx => absurd hx (List.not_mem_nil x)) hnd]
      rw [List.foldl_cons, List.foldl_nil]
      unfold copyStep
      have hpath : (⟨"MANIFEST.json", mfBytes, mfMtime⟩ : FileEntry).path
          = "MANIFEST.json" := rfl
      rw [if_pos (by rw [hpath]; decide)]
      simp
    have hdest :
        (restore_outcome hashFn parseM root [] hasChecker none backup_id dest rid).destTree
          = tree := by
      simp only [restore_outcome, hfind]
      rw [hfold]
    have hprem : ∀ me ∈ (create_backup_manifest hashFn alg created tree).files,
        ∃ fe, lookupFile tree me.path = some fe ∧ hashFn fe.content = me.hash := by
      intro me hme
      simp only [create_backup_manifest, List.mem_map] at hme
      obtain ⟨f, hf, rfl⟩ := hme
      exact ⟨f, lookupFile_of_nodup tree f hf hnd, rfl⟩
    have hvf : verifyFiles hashFn tree (create_backup_manifest hashFn alg created tree)
        = { initVerifyResult (create_backup_manifest hashFn alg created tree).files.length with
            verified_files :=
              (initVerifyResult (create_backup_manifest hashFn alg created tree).files.length).verified_files
                + (create_backup_manifest hashFn alg created tree).files.length } :=
      verify_foldl_all_match hashFn tree (create_backup_manifest hashFn alg created tree).files
        (initVerifyResult (create_backup_manifest hashFn alg created tree).files.length) hprem
    refine ⟨hdest, ?_, ?_⟩ <;> rw [hdest, hvf] <;> simp [initVerifyResult]

/-- Witness for the snapshot-verification theorem: the fault-free restore
of the concrete snapshot reproduces its payload in the destination. -/
theorem restore_verifies_snapshot_and_roundtrip_witness :
    (restore_outcome hashModel c1Parse c1Root [] true none "full_1" "D" "rw").destTree
      = [⟨"a", [0], 0⟩, ⟨"b", [1], 0⟩] :=
  (restore_verifies_snapshot_and_roundtrip.2 hashModel c1Parse c1Root true
    "full_1" "D" "rw" "sha256" "t" [⟨"a", [0], 0⟩, ⟨"b", [1], 0⟩] [9] 0
    (by decide) (by decide) (by decide)).1

/-- Claim C8: restore_incremental_chain restores the full snapshot first and
then copies each increment's files over the destination in exactly the
caller-supplied order, so the last writer of a path in that order wins:
with two increments both carrying path p, the destination ends with the
second increment's version; and the aggregate file_count equals the full
restore's count plus every file copied from increments, counting
overwritten duplicates (a write count, not a distinct-file count). -/
theorem chain_restore_last_writer_wins :
    ∀ (hashFn : Bytes → String) (parseM : Bytes → Option Manifest)
      (root : BackupRoot) (copyFail : List String) (hasChecker : Bool)
      (full_id : String) (ids : List String) (dest rid : String)
      (snaps : List Tree),
      resolveIds root ids = some snaps →
      (restore_outcome hashFn parseM root copyFail hasChecker none full_id dest
          (rid ++ "_full")).ok = true →
      ((restore_incremental_chain hashFn parseM root copyFail hasChecker none
          full_id ids dest rid).1.1 = true ∧
       (restore_incremental_chain hashFn parseM root copyFail hasChecker none
          full_id ids dest rid).1.2.status = "completed" ∧
       (restore_incremental_chain hashFn parseM root copyFail hasChecker none
          full_id ids dest rid).1.2.file_count
         = some ((restore_outcome hashFn parseM root copyFail hasChecker none
              full_id dest (rid ++ "_full")).record.file_count.getD 0
             + (snaps.map (countCopied copyFail)).sum) ∧
       (restore_incremental_chain hashFn parseM root copyFail hasChecker none
          full_id ids dest rid).2
         = (chainTree copyFail
             ((restore_outcome hashFn parseM root copyFail hasChecker none
                full_id dest (rid ++ "_full")).destTree,
              (restore_outcome hashFn parseM root copyFail hasChecker none
                full_id dest (rid ++ "_full")).record.file_count.getD 0)
             snaps).1) ∧
      (∀ (s1 s2 : Tree) (p : String) (e : FileEntry),
        snaps = [s1, s2] →
        (s2.map FileEntry.path).Nodup →
        lookupFile s2 p = some e →
        copyableFile copyFail e = true →
        lookupFile (restore_incremental_chain hashFn parseM root copyFail
            hasChecker none full_id ids dest rid).2 p = some e) := by
  intro hashFn parseM root copyFail hasChecker full_id ids dest rid snaps hres hok
  have hgo := chain_go_resolved root copyFail ids snaps
    ((restore_outcome hashFn parseM root copyFail hasChecker none full_id dest
        (rid ++ "_full")).destTree,
     (restore_outcome hashFn parseM root copyFail hasChecker none full_id dest
        (rid ++ "_full")).record.file_count.getD 0) hres
  have hcalc : restore_incremental_chain hashFn parseM root copyFail hasChecker none
        full_id ids dest rid
      = ((true,
          { recovery_id := rid, full_backup_id := full_id,
            incremental_count := ids.length, destination := dest,
            status := "completed",
            file_count := some (chainTree copyFail
              ((restore_outcome hashFn parseM root copyFail hasChecker none
                  full_id dest (rid ++ "_full")).destTree,
               (restore_outcome hashFn parseM root copyFail hasChecker none
                  full_id dest (rid ++ "_full")).record.file_count.getD 0)
              snaps).2 }),
         (chainTree copyFail
           ((restore_outcome hashFn parseM root copyFail hasChecker none
               full_id dest (rid ++ "_full")).destTree,
            (restore_outcome hashFn parseM root copyFail hasChecker none
               full_id dest (rid ++ "_full")).record.file_count.getD 0)
           snaps).1) := by
    simp only [restore_incremental_chain]
    rw [hok, if_pos rfl, hgo]
  constructor
  · refine ⟨?_, ?_, ?_, ?_⟩
    · rw [hcalc]
    · rw [hcalc]
    · rw [hcalc]
      show some _ = some _
      rw [chainTree_count]
    · rw [hcalc]
  · intro s1 s2 p e hsnaps hnd hfind hcp
    subst hsnaps
    rw [hcalc]
    exact apply_increment_written copyFail s2 p e _ hnd hfind hcp

/-- Witness for the chain-restore theorem: restoring a full snapshot plus
two increments that both carry path p leaves the second increment's
content at p. -/
theorem chain_restore_last_writer_wins_witness :
    lookupFile (restore_incremental_chain hashModel c1Parse c8Root [] false none
        "f1" ["i1", "i2"] "D" "rc").2 "p" = some ⟨"p", [2], 0⟩ :=
  (chain_restore_last_writer_wins hashModel c1Parse c8Root [] false
      "f1" ["i1", "i2"] "D" "rc" [c8Inc1, c8Inc2] (by decide) (by decide)).2
    c8Inc1 c8Inc2 "p" ⟨"p", [2], 0⟩ rfl (by decide) (by decide) (by decide)

/-- Claim C9: apply_retention_policy computes a per-type cutoff of now minus
that type's policy days, judges each snapshot directory by its filesystem
creation time, and deletes a directory if and only if its creation time is
strictly older than its type's cutoff (the deleted count and the kept
listing partition the original); the history document is never modified;
under the default 7-day full policy a full snapshot created 10 days ago is
deleted, one created 3 days ago is retained, and one created exactly at
the cutoff boundary is retained. -/
theorem retention_deletes_strictly_older :
    ∀ (policy : RetentionPolicy) (now : Int) (st : VMState),
      (∀ d, d ∈ (apply_retention_policy policy now st).1.full ↔
        (d ∈ st.full ∧
          ¬(d.ctime < now - (policy.full_backup_days : Int) * secondsPerDay))) ∧
      (∀ d, d ∈ (apply_retention_policy policy now st).1.incremental ↔
        (d ∈ st.incremental ∧
          ¬(d.ctime < now - (policy.incremental_backup_days : Int) * secondsPerDay))) ∧
      (∀ d, d ∈ (apply_retention_policy policy now st).1.differential ↔
        (d ∈ st.differential ∧
          ¬(d.ctime < now - (policy.differential_backup_days : Int) * secondsPerDay))) ∧
      (apply_retention_policy policy now st).1.history = st.history ∧
      ((apply_retention_policy policy now st).2.full_backups_deleted
          + (apply_retention_policy policy now st).1.full.length
        = st.full.length) ∧
      (∀ (bid : String) (sz : Nat) (hf : HistFile),
        (apply_retention_policy defaultRetentionPolicy now
            ⟨[⟨bid, now - 10 * secondsPerDay, sz⟩], [], [], hf⟩).1.full = [] ∧
        (apply_retention_policy defaultRetentionPolicy now
            ⟨[⟨bid, now - 3 * secondsPerDay, sz⟩], [], [], hf⟩).1.full
          = [⟨bid, now - 3 * secondsPerDay, sz⟩] ∧
        (apply_retention_policy defaultRetentionPolicy now
            ⟨[⟨bid, now - 7 * secondsPerDay, sz⟩], [], [], hf⟩).1.full
          = [⟨bid, now - 7 * secondsPerDay, sz⟩]) := by
  intro policy now st
  refine ⟨?_, ?_, ?_, rfl, ?_, ?_⟩
  · intro d
    simp [apply_retention_policy, List.mem_filter, expired]
  · intro d
    simp [apply_retention_policy, List.mem_filter, expired]
  · intro d
    simp [apply_retention_policy, List.mem_filter, expired]
  · exact filter_length_partition
      (expired (now - (policy.full_backup_days : Int) * secondsPerDay)) st.full
  · intro bid sz hf
    have hc10 : expired (now - (defaultRetentionPolicy.full_backup_days : Int)
          * secondsPerDay) (⟨bid, now - 10 * secondsPerDay, sz⟩ : SnapshotDir)
        = true := by
      unfold expired
      rw [decide_eq_true_eq]
      show now - 10 * secondsPerDay
        < now - (defaultRetentionPolicy.full_backup_days : Int) * secondsPerDay
      simp only [defaultRetentionPolicy, secondsPerDay]
      push_cast
      omega
    have hc3 : expired (now - (defaultRetentionPolicy.full_backup_days : Int)
          * secondsPerDay) (⟨bid, now - 3 * secondsPerDay, sz⟩ : SnapshotDir)
        = false := by
      unfold expired
      rw [decide_eq_false_iff_not]
      show ¬(now - 3 * secondsPerDay
        < now - (defaultRetentionPolicy.full_backup_days : Int) * secondsPerDay)
      simp only [defaultRetentionPolicy, secondsPerDay]
      push_cast
      omega
    have hc7 : expired (now - (defaultRetentionPolicy.full_backup_days : Int)
          * secondsPerDay) (⟨bid, now - 7 * secondsPerDay, sz⟩ : SnapshotDir)
        = false := by
      unfold expired
      rw [decide_eq_false_iff_not]
      show ¬(now - 7 * secondsPerDay
        < now - (defaultRetentionPolicy.full_backup_days : Int) * secondsPerDay)
      simp only [defaultRetentionPolicy, secondsPerDay]
      push_cast
      omega
    refine ⟨?_, ?_, ?_⟩
    · show ([(⟨bid, now - 10 * secondsPerDay, sz⟩ : SnapshotDir)].filter
        (fun d => !expired (now - (defaultRetentionPolicy.full_backup_days : Int)
          * secondsPerDay) d)) = []
      rw [List.filter_cons_of_neg (by rw [hc10]; decide)]
      rfl
    · show ([(⟨bid, now - 3 * secondsPerDay, sz⟩ : SnapshotDir)].filter
        (fun d => !expired (now - (defaultRetentionPolicy.full_backup_days : Int)
          * secondsPerDay) d)) = [⟨bid, now - 3 * secondsPerDay, sz⟩]
      rw [List.filter_cons_of_pos (by rw [hc3]; decide)]
      rfl
    · show ([(⟨bid, now - 7 * secondsPerDay, sz⟩ : SnapshotDir)].filter
        (fun d => !expired (now - (defaultRetentionPolicy.full_backup_days : Int)
          * secondsPerDay) d)) = [⟨bid, now - 7 * secondsPerDay, sz⟩]
      rw [List.filter_cons_of_pos (by rw [hc7]; decide)]
      rfl

/-- Witness for the retention theorem at a concrete instant: the 10-day-old
full snapshot directory is gone after applying the default policy. -/
theorem retention_deletes_strictly_older_witness :
    (apply_retention_policy defaultRetentionPolicy 1000000
        ⟨[⟨"b1", 1000000 - 10 * secondsPerDay, 5⟩], [], [],
          HistFile.missing⟩).1.full = [] :=
  ((retention_deletes_strictly_older defaultRetentionPolicy 1000000
      ⟨[⟨"b1", 1000000 - 10 * secondsPerDay, 5⟩], [], [],
        HistFile.missing⟩).2.2.2.2.2 "b1" 5 HistFile.missing).1

end BackupSystem
